import Mathlib

/-!
Verification of the wollok-ts source-text parser (src/parser.ts).

The parser is a Parsimmon combinator grammar.  We shallowly embed the
combinator core and the grammar over it: a parser is a function from the
full input (a list of characters) and a current offset to an optional
(value, new offset) pair.  Parsimmon's alternation is ordered with full
backtracking (PEG semantics), so `Option` captures success/failure
faithfully; failure bookkeeping in Parsimmon only affects error messages,
never which parse succeeds.

Offsets count characters (Parsimmon counts UTF-16 code units; they agree
on the inputs considered here, which avoid astral characters).
-/

set_option linter.unusedVariables false
set_option maxHeartbeats 1600000
set_option maxRecDepth 8000

namespace Wollok

/-- Parsimmon index: `{ offset, line, column }`, line and column 1-based. -/
structure Pos where
  offset : Nat
  line : Nat
  column : Nat
deriving Repr, DecidableEq

/-- A source span `{ start, end, file }`.  The TS field `end` is called
`stop` here because `end` is a Lean keyword. -/
structure Src where
  start : Pos
  stop : Pos
  file : Option String
deriving Repr, DecidableEq

/-- Parsimmon's index computation: line = 1 + newlines before the offset,
column = characters since the last newline + 1. -/
def lineColAt (inp : List Char) (i : Nat) : Nat × Nat :=
  (inp.take i).foldl
    (fun (p : Nat × Nat) ch =>
      match p with
      | (l, c) => if ch = '\n' then (l + 1, 1) else (l, c + 1))
    (1, 1)

def posAt (inp : List Char) (i : Nat) : Pos :=
  { offset := i, line := (lineColAt inp i).1, column := (lineColAt inp i).2 }

/-- A Parsimmon parser: full input, current offset ↦ optional value and
new offset. -/
def P (α : Type) : Type := List Char → Nat → Option (α × Nat)

namespace P

/-- A parser that always fails. -/
def failP : P α := fun _ _ => none

/-- Parsimmon `of` / `succeed`: consume nothing, yield `a`. -/
def pureP (a : α) : P α := fun _ i => some (a, i)

def map (f : α → β) (p : P α) : P β := fun inp i =>
  (p inp i).map fun r => match r with | (a, j) => (f a, j)

def bind (p : P α) (f : α → P β) : P β := fun inp i =>
  (p inp i).bind fun r => match r with | (a, j) => f a inp j

/-- Parsimmon `seq` of two parsers. -/
def seq (p : P α) (q : P β) : P (α × β) :=
  p.bind fun a => q.map fun b => (a, b)

/-- Parsimmon `p.then(q)`: keep the second result. -/
def thenP (p : P α) (q : P β) : P β := (seq p q).map Prod.snd

/-- Parsimmon `p.skip(q)`: keep the first result. -/
def skipP (p : P α) (q : P β) : P α := (seq p q).map Prod.fst

/-- Parsimmon `alt`/`or`: ordered choice with backtracking. -/
def alt (p q : P α) : P α := fun inp i =>
  match p inp i with
  | some r => some r
  | none => q inp i

/-- Parsimmon `alt(...)` over a list, tried in order. -/
def altList (ps : List (P α)) : P α := ps.foldr alt failP

/-- Parsimmon `fallback`. -/
def fallback (p : P α) (a : α) : P α := alt p (pureP a)

/-- src/parser.ts `optional`: `parser.fallback(undefined)`. -/
def opt (p : P α) : P (Option α) := fallback (map some p) none

/-- src/parser.ts `check`: `parser.result(true).fallback(false)`. -/
def result (p : P α) (b : β) : P β := map (fun _ => b) p

def check (p : P α) : P Bool := fallback (result p true) false

/-- Parsimmon `notFollowedBy`: succeed without consuming iff `p` fails. -/
def notFollowedBy (p : P α) : P Unit := fun inp i =>
  match p inp i with
  | some _ => none
  | none => some ((), i)

/-- Parsimmon `string(s)`. -/
def str (s : String) : P String := fun inp i =>
  if s.data.isPrefixOf (inp.drop i) then some (s, i + s.data.length) else none

/-- Parsimmon `any`: consume exactly one character (yielded as a string). -/
def anyP : P String := fun inp i =>
  match inp[i]? with
  | some c => some (String.mk [c], i + 1)
  | none => none

/-- A single character satisfying a predicate (used to model one-character
regular expression classes). -/
def charIf (f : Char → Bool) : P Char := fun inp i =>
  match inp[i]? with
  | some c => if f c then some (c, i + 1) else none
  | none => none

/-- Parsimmon `takeWhile`: greedily consume while the predicate holds
(never fails). -/
def takeWhileP (f : Char → Bool) : P String := fun inp i =>
  some (String.mk ((inp.drop i).takeWhile f), i + ((inp.drop i).takeWhile f).length)

/-- Like `takeWhileP` but requires at least one character (models `/x+/`
style regular expressions). -/
def takeWhile1 (f : Char → Bool) : P String := fun inp i =>
  if ((inp.drop i).takeWhile f).length = 0 then none
  else some (String.mk ((inp.drop i).takeWhile f), i + ((inp.drop i).takeWhile f).length)

/-- Iteration core of Parsimmon `many`.  Parsimmon raises an exception if
an iteration succeeds without consuming; that situation is unreachable in
this grammar, and is modelled by stopping the loop. -/
def manyAux (p : P α) : Nat → List Char → Nat → List α × Nat
  | 0, _, i => ([], i)
  | fuel + 1, inp, i =>
    match p inp i with
    | none => ([], i)
    | some (a, j) =>
      if i < j then
        match manyAux p fuel inp j with
        | (as, k) => (a :: as, k)
      else ([], i)

/-- Parsimmon `many`: zero or more repetitions. -/
def many (p : P α) : P (List α) := fun inp i =>
  some (manyAux p (inp.length + 1) inp i)

/-- Parsimmon `times(n)`: exactly `n` repetitions. -/
def timesP (p : P α) : Nat → P (List α)
  | 0 => pureP []
  | n + 1 => (seq p (timesP p n)).map fun r => match r with | (a, as) => a :: as

/-- Parsimmon `atLeast(n)`: `seqMap(times(n), many, concat)`. -/
def atLeast (p : P α) (n : Nat) : P (List α) :=
  (seq (timesP p n) (many p)).map fun r => match r with | (as, bs) => as ++ bs

/-- Parsimmon `sepBy1`. -/
def sepBy1 (p : P α) (sep : P β) : P (List α) :=
  (seq p (many (thenP sep p))).map fun r => match r with | (a, as) => a :: as

/-- Parsimmon `sepBy`. -/
def sepBy (p : P α) (sep : P β) : P (List α) := fallback (sepBy1 p sep) []

/-- Parsimmon `index`. -/
def index : P Pos := fun inp i => some (posAt inp i, i)

/-- Parsimmon `mark`: start index, value, end index. -/
def mark (p : P α) : P (Pos × α × Pos) :=
  (seq index (seq p index)).map fun r => match r with | (s, (v, e)) => (s, v, e)

/-- Parsimmon `p.wrap(l, r)`: parse `l`, `p`, `r`, keep `p`'s value. -/
def wrap (p : P α) (l : P β) (r : P γ) : P α := thenP l (skipP p r)

/-- Parsimmon `p.trim(q)`: `p.wrap(q, q)`. -/
def trim (p : P α) (q : P β) : P α := wrap p q q

/-- Parsimmon `eof`. -/
def eofP : P Unit := fun inp i =>
  if inp.length ≤ i then some ((), i) else none

end P

-- ── Character classes and small JS string helpers ──────────────────────

/-- JS regex `\w` (ASCII word character). -/
def isWordChar (c : Char) : Bool := c.isAlphanum || c = '_'

/-- First character of the `name` regex `[^\W\d]` = word and not digit. -/
def isNameStart (c : Char) : Bool := c.isAlpha || c = '_'

def isDigitC (c : Char) : Bool := c.isDigit

/-- JS regex `\s`, restricted to the ASCII whitespace characters (the
Unicode space characters do not occur in the inputs considered). -/
def isJsWs (c : Char) : Bool :=
  c = ' ' || c = '\t' || c = '\n' || c = '\r' ||
  c = Char.ofNat 11 || c = Char.ofNat 12

def bslash : Char := Char.ofNat 92
def squote : Char := Char.ofNat 39
def dquote : Char := Char.ofNat 34
def lbrace : Char := Char.ofNat 123
def rbrace : Char := Char.ofNat 125

/-- `basename(fileName)` from node's `path` (posix separators). -/
def jsBasename (s : String) : String :=
  String.mk ((s.data.reverse.takeWhile (fun c => c ≠ '/')).reverse)

/-- `basename(fileName).split('.')[0]` as used by `File`. -/
def fileBaseName (s : String) : String :=
  String.mk ((jsBasename s).data.takeWhile (fun c => c ≠ '.'))

/-- JS `String.prototype.trim` (ASCII whitespace suffices here). -/
def jsTrim (s : String) : String :=
  String.mk (((s.data.dropWhile isJsWs).reverse.dropWhile isJsWs).reverse)

/-- JS `.slice(0, -1)`: drop the last character. -/
def dropLast1 (s : String) : String := String.mk (s.data.dropLast)

def hexVal (c : Char) : Option Nat :=
  if c.isDigit then some (c.toNat - 48)
  else if 'a' ≤ c && c ≤ 'f' then some (c.toNat - 87)
  else if 'A' ≤ c && c ≤ 'F' then some (c.toNat - 70)
  else none

def isHexDigit (c : Char) : Bool := (hexVal c).isSome

/-- The `unraw` escape decoder, on the escape forms allowed by the string
literal regexes: `\b \f \n \r \t \v \" \' \\ \/ \uXXXX`. -/
def unrawChars : List Char → List Char
  | [] => []
  | [c] => if c = bslash then [] else [c]
  | c :: e :: rest' =>
    if c = bslash then
      if e = 'b' then Char.ofNat 8 :: unrawChars rest'
      else if e = 'f' then Char.ofNat 12 :: unrawChars rest'
      else if e = 'n' then '\n' :: unrawChars rest'
      else if e = 'r' then '\r' :: unrawChars rest'
      else if e = 't' then '\t' :: unrawChars rest'
      else if e = 'v' then Char.ofNat 11 :: unrawChars rest'
      else if e = 'u' then
        match rest' with
        | h1 :: h2 :: h3 :: h4 :: rest'' =>
          match hexVal h1, hexVal h2, hexVal h3, hexVal h4 with
          | some a, some b, some c', some d =>
            Char.ofNat (((a * 16 + b) * 16 + c') * 16 + d) :: unrawChars rest''
          -- invalid escapes make `unraw` throw; the string-literal regex
          -- rules them out, so the remaining fallbacks are unreachable
          | _, _, _, _ => e :: h1 :: h2 :: h3 :: h4 :: rest''
        | _ => e :: rest'
      else e :: unrawChars rest'
    else c :: unrawChars (e :: rest')

/-- Scanner for the body of a quoted string literal with quote character
`q`: returns the number of raw characters before the closing quote, or
`none` if the regex cannot match.  Mirrors
`(?:[^\\q]|\\[bfnrtvq\\/]|\\u[0-9a-fA-F]{4})*` followed by `q`. -/
def strBody (q : Char) : List Char → Option Nat
  | [] => none
  | [c] => if c = q then some 0 else none
  | c :: e :: rest' =>
    if c = q then some 0
    else if c = bslash then
      if e = 'b' || e = 'f' || e = 'n' || e = 'r' || e = 't' || e = 'v' ||
         e = '/' || e = bslash || e = q then
        (strBody q rest').map (· + 2)
      else if e = 'u' then
        match rest' with
        | h1 :: h2 :: h3 :: h4 :: rest'' =>
          if isHexDigit h1 && isHexDigit h2 && isHexDigit h3 && isHexDigit h4 then
            (strBody q rest'').map (· + 6)
          else none
        | _ => none
      else none
    else (strBody q (e :: rest')).map (· + 1)

/-- Length (including the closing `*/`) of the shortest block-comment
body, scanning from just after the opening. -/
def findCloseLen : List Char → Option Nat
  | '*' :: '/' :: _ => some 2
  | _ :: rest => (findCloseLen rest).map (· + 1)
  | [] => none

-- ── The AST (src/model.ts is not under src/; the node payloads are read
-- off their construction sites in src/parser.ts, and the field tables in
-- spec §3) ─────────────────────────────────────────────────────────────

mutual

/-- Raw AST nodes.  One constructor per TS node class, with the payload
fields that src/parser.ts passes to each constructor, plus the `source`
the `node` combinator adds (`none` models an absent/undefined source).
`problems` is `some` exactly on nodes that went through `recover`.
`ParseError` is the recoverable `Problem { code, source }`. -/
inductive Node where
  | Package (name : String) (imports : List Node) (members : List Node)
      (problems : Option (List Node)) (source : Option Src)
  | Import (entity : Node) (isGeneric : Bool) (source : Option Src)
  | Reference (name : String) (source : Option Src)
  | Parameter (name : String) (isVarArg : Bool) (source : Option Src)
  | NamedArgument (name : String) (value : Node) (source : Option Src)
  | Body (sentences : List Node) (source : Option Src)
  | Class (name : String) (superclassRef : Option Node) (mixins : List Node)
      (members : List Node) (problems : Option (List Node)) (source : Option Src)
  | Singleton (name : Option String) (superclassRef : Option Node)
      (supercallArgs : List Node) (mixins : List Node) (members : List Node)
      (problems : Option (List Node)) (source : Option Src)
  | Mixin (name : String) (mixins : List Node) (members : List Node)
      (problems : Option (List Node)) (source : Option Src)
  | Program (name : String) (body : Node) (source : Option Src)
  | Describe (name : String) (members : List Node)
      (problems : Option (List Node)) (source : Option Src)
  | Test (isOnly : Bool) (name : String) (body : Node) (source : Option Src)
  | Variable (isReadOnly : Bool) (name : String) (value : Option Node)
      (source : Option Src)
  | Field (isReadOnly : Bool) (isProperty : Bool) (name : String)
      (value : Option Node) (source : Option Src)
  | Method (isOverride : Bool) (name : String) (parameters : List Node)
      (body : MBody) (source : Option Src)
  | Constructor (parameters : List Node) (baseCall : Option (Bool × List Node))
      (body : Node) (source : Option Src)
  | Fixture (body : Node) (source : Option Src)
  | Self (source : Option Src)
  | Super (args : List Node) (source : Option Src)
  | New (instantiated : Node) (args : List Node) (source : Option Src)
  | If (condition : Node) (thenBody : Node) (elseBody : Option Node)
      (source : Option Src)
  | Throw (exception : Node) (source : Option Src)
  | Try (body : Node) (catches : List Node) (always : Option Node)
      (source : Option Src)
  | Catch (parameter : Node) (parameterType : Option Node) (body : Node)
      (source : Option Src)
  | Literal (value : LitV) (source : Option Src)
  | Send (receiver : Node) (message : String) (args : List Node)
      (source : Option Src)
  | Return (value : Option Node) (source : Option Src)
  | Assignment (target : Node) (value : Node) (source : Option Src)
      -- the TS field name of `target` is `variable` (a Lean keyword)
  | Closure (parameters : List Node) (sentences : List Node)
      (code : Option String) (source : Option Src)
  | ParseError (code : String) (source : Src)

/-- A `Literal` node's `value`: a scalar, the decoded string, the raw
matched numeral (JS `Number` decoding is out of the claims' scope), or a
nested node (collection `New`, or an object-literal `Singleton`). -/
inductive LitV where
  | nullV
  | boolV (b : Bool)
  | numV (raw : String)
  | strV (s : String)
  | nodeV (n : Node)

/-- A `Method`'s body: `BodyNode | 'native' | undefined`. -/
inductive MBody where
  | node (b : Node)
  | nativeB
  | absent

end

/-- The `source` attribute of a node (`none` = absent in TS). -/
def srcOf : Node → Option Src
  | .Package _ _ _ _ s => s
  | .Import _ _ s => s
  | .Reference _ s => s
  | .Parameter _ _ s => s
  | .NamedArgument _ _ s => s
  | .Body _ s => s
  | .Class _ _ _ _ _ s => s
  | .Singleton _ _ _ _ _ _ s => s
  | .Mixin _ _ _ _ s => s
  | .Program _ _ s => s
  | .Describe _ _ _ s => s
  | .Test _ _ _ s => s
  | .Variable _ _ _ s => s
  | .Field _ _ _ _ s => s
  | .Method _ _ _ _ s => s
  | .Constructor _ _ _ s => s
  | .Fixture _ s => s
  | .Self s => s
  | .Super _ s => s
  | .New _ _ s => s
  | .If _ _ _ s => s
  | .Throw _ s => s
  | .Try _ _ _ s => s
  | .Catch _ _ _ s => s
  | .Literal _ s => s
  | .Send _ _ _ s => s
  | .Return _ s => s
  | .Assignment _ _ s => s
  | .Closure _ _ _ s => s
  | .ParseError _ s => some s

def isParseError : Node → Bool
  | .ParseError _ _ => true
  | _ => false

/-- Modelled from the spec: `recover` uses `mapObject`/`discriminate`
from src/extensions.ts, which is not under src/.  Spec §4.6: the
enclosing combinator partitions its member/import lists — problem items
move to the container's `problems` field, well-formed items remain in
place.  Returns (problems, kept), both in original order. -/
def recoverSplit : List Node → List Node × List Node
  | [] => ([], [])
  | n :: rest =>
    match recoverSplit rest with
    | (ps, ks) => if isParseError n then (n :: ps, ks) else (ps, n :: ks)

-- ── Operator tables (src/parser.ts lines 11–36) ────────────────────────

def PREFIX_OPERATORS : List (String × String) :=
  [("!", "negate"), ("-", "invert"), ("+", "plus"), ("not", "negate")]

/-- JS `PREFIX_OPERATORS[message]`. -/
def prefixMap (s : String) : String :=
  (((PREFIX_OPERATORS.find? (fun p => p.1 = s)).map Prod.snd).getD s)

def ASSIGNATION_OPERATORS : List String :=
  ["=", "||=", "/=", "-=", "+=", "*=", "&&=", "%="]

def LAZY_OPERATORS : List String := ["||", "&&", "or", "and"]

def INFIX_OPERATORS : List (List String) :=
  [["||", "or"],
   ["&&", "and"],
   ["===", "==", "!==", "!="],
   [">=", ">", "<=", "<"],
   ["?:", ">>>", ">>", ">..", "<>", "<=>", "<<<", "<<", "..<", "..", "->"],
   ["-", "+"],
   ["/", "*"],
   ["**", "%"]]

/-- Strict lexicographic (code-point) order on character lists. -/
def lexLtB : List Char → List Char → Bool
  | [], [] => false
  | [], _ :: _ => true
  | _ :: _, [] => false
  | a :: as, b :: bs =>
    if a < b then true else if b < a then false else lexLtB as bs

/-- Stable insertion of `x` into a list sorted in descending order:
`x` goes before the first strictly smaller element (equal elements keep
their original relative order, as JS `Array.sort` is stable). -/
def insertDesc (x : String) : List String → List String
  | [] => [x]
  | y :: ys => if lexLtB y.data x.data then x :: y :: ys else y :: insertDesc x ys

/-- `.sort((a, b) => b.localeCompare(a))`: descending lexicographic sort.
`localeCompare` is modelled by code-point comparison; the two collations
agree on every property used below (in particular, in any collation a
proper prefix sorts before its extensions, so an operator always precedes
its proper prefixes in the descending list). -/
def jsSortDesc (l : List String) : List String :=
  l.foldl (fun acc x => insertDesc x acc) []

/-- Line 33–36: all prefix-operator names and infix operators, sorted
descending. -/
def ALL_OPERATORS : List String :=
  jsSortDesc (PREFIX_OPERATORS.map Prod.snd ++ INFIX_OPERATORS.flatten)

-- ── Lexical layer ──────────────────────────────────────────────────────

/-- Block comment `/*...*/` (shortest match) — first alternative of the
`comment` regex. -/
def blockComment : P String := fun inp i =>
  if ['/', '*'].isPrefixOf (inp.drop i) then
    match findCloseLen (inp.drop (i + 2)) with
    | some n => some (String.mk ((inp.drop i).take (2 + n)), i + 2 + n)
    | none => none
  else none

/-- Line comment `//...` up to (not including) the end of line. -/
def lineComment : P String :=
  (P.seq (P.str "//") (P.takeWhileP (fun c => c ≠ '\n' && c ≠ '\r'))).map
    fun r => match r with | (o, rest) => o ++ rest

/-- Line 82: `const comment = regex(/\/\*(.|[\r\n])*?\*\/|\/\/.*/)`. -/
def comment : P String := P.alt blockComment lineComment

/-- Parsimmon `whitespace`: `/\s+/`. -/
def whitespaceP : P String := P.takeWhile1 isJsWs

/-- Line 84: `const _ = comment.or(whitespace).atLeast(1)`. -/
def blank : P (List String) := P.atLeast (P.alt comment whitespaceP) 1

/-- `str.match(/[\w ]+/)`: true iff the string contains a word character
or a space. -/
def isWordlike (s : String) : Bool := s.data.any (fun c => isWordChar c || c = ' ')

/-- Line 76–80: the `key` matcher. -/
def key (s : String) : P String :=
  P.trim
    (if isWordlike s then P.skipP (P.str s) (P.notFollowedBy (P.charIf isWordChar))
     else P.str s)
    (P.opt blank)

/-- Line 161: `operator`. -/
def operator (operatorNames : List String) : P String :=
  P.altList (operatorNames.map key)

/-- Line 118: `name = regex(/[^\W\d]\w*/)`. -/
def name : P String :=
  (P.seq (P.charIf isNameStart) (P.takeWhileP isWordChar)).map
    fun r => match r with | (c, rest) => String.mk (c :: rest.data)

/-- One quoted string literal alternative with quote `q`, unescaped with
`unraw` (lines 482–487). -/
def quotedLit (q : Char) : P String := fun inp i =>
  match inp[i]? with
  | some c =>
    if c = q then
      match strBody q (inp.drop (i + 1)) with
      | some n =>
        some (String.mk (unrawChars ((inp.drop (i + 1)).take n)), i + n + 2)
      | none => none
    else none
  | none => none

def stringLiteral : P String := P.alt (quotedLit dquote) (quotedLit squote)

def digits1 : P String := P.takeWhile1 isDigitC

/-- The number literal regex `-?\d+(\.\d+)?` (line 470), kept as the
matched text. -/
def numberLit : P String :=
  (P.seq (P.fallback (P.str "-") "")
    (P.seq digits1
      (P.fallback
        ((P.seq (P.str ".") digits1).map fun r => match r with | (_, ds) => "." ++ ds)
        ""))).map
    fun r => match r with | (sign, ds, frac) => sign ++ ds ++ frac

/-- The separator `optional(alt(key(';'), _))` used between sentences. -/
def sentenceSep : P (Option Unit) :=
  P.opt (P.alt (P.result (key ";") ()) (P.result blank ()))

-- ── The `node` combinator (lines 86–93) ────────────────────────────────

/-- `node(constructor)(parser)`: leading blank, start index, payload, end
index; the payload is completed with `{ start, end, file: SOURCE_FILE }`.
`sf` is the ambient value of the module-global `SOURCE_FILE`. -/
def node (sf : Option String) (p : P (Src → Node)) : P Node :=
  (P.seq (P.thenP (P.opt blank) P.index) (P.seq p P.index)).map
    fun r =>
      match r with
      | (start, (f, stop)) => f { start := start, stop := stop, file := sf }

-- ── Error recovery (lines 45–63) ───────────────────────────────────────

/-- The skip unit of `error`: a balanced-ish `{ … }` region consumed as a
unit, or any single character. -/
def errorSkipUnit : P String :=
  P.alt
    ((P.seq (P.str "\x7b") (P.seq (P.takeWhileP (fun c => c ≠ rbrace)) (P.str "\x7d"))).map
      fun r => match r with | (o, (m, c)) => o ++ m ++ c)
    P.anyP

/-- Lines 45–51: `error(code)(...safewords)`. -/
def errorRecovery (sf : Option String) (code : String) (safewords : List String) : P Node :=
  (P.mark
    (P.atLeast (P.thenP (P.notFollowedBy (P.altList (safewords.map key))) errorSkipUnit) 1)).map
    fun r =>
      match r with
      | (start, (_, stop)) =>
        .ParseError code { start := start, stop := stop, file := sf }

def entityError (sf : Option String) : P Node :=
  errorRecovery sf "malformedEntity"
    ["package", "class", "singleton", "mixin", "program", "describe", "test",
     "var", "const", "\x7d"]

def memberError (sf : Option String) : P Node :=
  errorRecovery sf "malformedMember"
    ["method", "fixture", "var", "const", "test", "describe", "\x7d"]

def classMemberError (sf : Option String) : P Node :=
  errorRecovery sf "malformedMember"
    ["method", "constructor", "var", "const", "\x7d"]

-- ── Desugaring actions (named so the theorems below are about the very
-- functions the grammar runs) ──────────────────────────────────────────

/-- Modelled from the spec: `build.Closure` (src/builders.ts is not under
src/).  Spec §4.3 and the glossary describe a closure literal as an
anonymous singleton with a single `apply`-like method carrying the
parameter list and the sentences, plus the verbatim `code` text; it is
modelled as a dedicated `Closure` node carrying exactly those
observables.  Call sites that pass no parameters/code/source (the
desugarings at lines 325 and 452) leave them `[]`/`none`. -/
def buildClosure (parameters : List Node) (sentences : List Node)
    (code : Option String) (source : Option Src) : Node :=
  .Closure parameters sentences code source

/-- The `Assignment` map (lines 317–328): the value stored in the
assignment node, desugared for compound operators. -/
def assignmentValue (target : Node) (assignation : String) (value : Node) : Node :=
  if assignation = "=" then value
  else
    .Send target (dropLast1 assignation)
      (if LAZY_OPERATORS.contains (dropLast1 assignation) then
        [buildClosure [] [value] none none]
      else [value])
      none

/-- One fold step of `infixOperation` (lines 447–456). -/
def infixFoldStep (start : Pos) (receiver : Node) (call : String × List Node × Pos) : Node :=
  match call with
  | (message, args, stop) =>
    .Send receiver (jsTrim message)
      (if LAZY_OPERATORS.contains message then
        [buildClosure [] args none none]
      else args)
      (some { start := start, stop := stop, file := none })

/-- One fold step of `prefixOperation` (lines 432–436, a `reduceRight`). -/
def prefixFoldStep (stop : Pos) (call : Pos × String) (receiver : Node) : Node :=
  match call with
  | (start, message) =>
    .Send receiver (prefixMap message) [] (some { start := start, stop := stop, file := none })

/-- One fold step of the `Send` chain (lines 421–425). -/
def sendFoldStep (start : Pos) (receiver : Node) (call : String × List Node × Pos) : Node :=
  match call with
  | (message, args, stop) =>
    .Send receiver message args (some { start := start, stop := stop, file := none })

/-- The expression-body of a method (lines 266–269): a one-sentence Body
holding a Return of the value, reusing the value's own source. -/
def methodExprBody (value : Node) : Node :=
  .Body [.Return (some value) none] (srcOf value)

/-- The `= Expression` alternative of a method body (line 266),
abstracted over the expression parser. -/
def methodEqBranch (expr : P Node) : P Node :=
  P.thenP (key "=") (expr.map methodExprBody)

-- ── Non-recursive node parsers ─────────────────────────────────────────

def Reference (sf : Option String) : P Node :=
  node sf (name.map fun n src => .Reference n (some src))

def FullyQualifiedReference (sf : Option String) : P Node :=
  node sf (((P.sepBy1 name (key ".")).map (String.intercalate ".")).map
    fun n src => .Reference n (some src))

def Parameter (sf : Option String) : P Node :=
  node sf ((P.seq name (P.fallback (P.result (P.str "...") true) false)).map
    fun r src => match r with | (nm, va) => .Parameter nm va (some src))

def parameters (sf : Option String) : P (List Node) :=
  P.wrap (P.sepBy (Parameter sf) (key ",")) (key "(") (key ")")

def ImportP (sf : Option String) : P Node :=
  node sf (P.thenP (key "import")
    ((P.seq (FullyQualifiedReference sf) (P.fallback (P.result (P.str ".*") true) false)).map
      fun r src => match r with | (e, g) => .Import e g (some src)))

/-- Lines 210–215: the `mixed with` clause before reversal. -/
def mixinsListed (sf : Option String) : P (List Node) :=
  P.thenP (key "mixed with") (P.sepBy1 (FullyQualifiedReference sf) (key "and"))

/-- Lines 210–215: the full `mixins` parser (reversed, defaulting to []). -/
def mixins (sf : Option String) : P (List Node) :=
  P.fallback ((mixinsListed sf).map List.reverse) []

/-- Line 367: the `with` clause of a `new … with …` expression. -/
def newMixins (sf : Option String) : P (List Node) :=
  (P.atLeast (P.thenP (key "with") (Reference sf)) 1).map List.reverse

def Self (sf : Option String) : P Node :=
  node sf ((key "self").map fun _ src => .Self (some src))

-- ── The mutually recursive grammar, indexed by fuel.  Parsimmon's `lazy`
-- fixpoints are modelled by a fuel parameter: every reference to a
-- grammar nonterminal inside another consumes one unit; with fuel 0 the
-- parser fails.  Any concrete parse below succeeds for every fuel beyond
-- its (small) nesting depth. ───────────────────────────────────────────

mutual

def Entity (sf : Option String) : Nat → P Node
  | 0 => P.failP
  | n + 1 => P.altList
      [Package sf n, Class sf n, Singleton sf n, Mixin sf n, Program sf n,
       Describe sf n, Test sf n, Variable sf n]

def Package (sf : Option String) : Nat → P Node
  | 0 => P.failP
  | n + 1 => node sf
      ((P.thenP (key "package")
        (P.seq (P.skipP name (key "\x7b"))
          (P.seq
            (P.many (P.skipP (ImportP sf) sentenceSep))
            (P.skipP (P.sepBy (P.alt (Entity sf n) (entityError sf)) (P.opt blank))
              (key "\x7d"))))).map
        fun r src =>
          match r with
          | (nm, ims, mems) =>
            match recoverSplit ims, recoverSplit mems with
            | (ip, ik), (mp, mk) => .Package nm ik mk (some (ip ++ mp)) (some src))

def Program (sf : Option String) : Nat → P Node
  | 0 => P.failP
  | n + 1 => node sf
      ((P.thenP (key "program") (P.seq name (Body sf n))).map
        fun r src => match r with | (nm, b) => .Program nm b (some src))

def Describe (sf : Option String) : Nat → P Node
  | 0 => P.failP
  | n + 1 => node sf
      ((P.thenP (key "describe")
        (P.seq (stringLiteral.map fun s => "\x22" ++ s ++ "\x22")
          (P.wrap
            (P.sepBy
              (P.alt (P.altList [Variable sf n, Fixture sf n, Test sf n, Method sf n])
                (memberError sf))
              (P.opt blank))
            (key "\x7b") (key "\x7d")))).map
        fun r src =>
          match r with
          | (nm, mems) =>
            match recoverSplit mems with
            | (mp, mk) => .Describe nm mk (some mp) (some src))

def Test (sf : Option String) : Nat → P Node
  | 0 => P.failP
  | n + 1 => node sf
      ((P.seq (P.check (key "only"))
        (P.seq (P.thenP (key "test") (stringLiteral.map fun s => "\x22" ++ s ++ "\x22"))
          (Body sf n))).map
        fun r src => match r with | (o, nm, b) => .Test o nm b (some src))

def Class (sf : Option String) : Nat → P Node
  | 0 => P.failP
  | n + 1 => node sf
      ((P.thenP (key "class")
        (P.seq name
          (P.seq (P.opt (P.thenP (key "inherits") (FullyQualifiedReference sf)))
            (P.seq (mixins sf)
              (P.wrap
                (P.sepBy
                  (P.altList [Constructor sf n, Field sf n, Method sf n, classMemberError sf])
                  (P.opt blank))
                (key "\x7b") (key "\x7d")))))).map
        fun r src =>
          match r with
          | (nm, sup, mix, mems) =>
            match recoverSplit mems with
            | (mp, mk) => .Class nm sup mix mk (some mp) (some src))

def Singleton (sf : Option String) : Nat → P Node
  | 0 => P.failP
  | n + 1 => node sf
      ((P.thenP (key "object")
        (P.seq
          (P.opt (P.thenP
            (P.notFollowedBy (P.alt (key "inherits") (key "mixed with")))
            name))
          (P.seq
            (P.opt (P.thenP (key "inherits")
              (P.seq (FullyQualifiedReference sf)
                (P.fallback (P.alt (unamedArguments sf n) (namedArguments sf n)) []))))
            (P.seq (mixins sf)
              (P.wrap
                (P.sepBy (P.altList [Field sf n, Method sf n, memberError sf])
                  (P.opt blank))
                (key "\x7b") (key "\x7d")))))).map
        fun r src =>
          match r with
          | (nm, supercall, mix, mems) =>
            match recoverSplit mems with
            | (mp, mk) =>
              match supercall with
              | some (sc, scargs) => .Singleton nm (some sc) scargs mix mk (some mp) (some src)
              | none => .Singleton nm none [] mix mk (some mp) (some src))

def Mixin (sf : Option String) : Nat → P Node
  | 0 => P.failP
  | n + 1 => node sf
      ((P.thenP (key "mixin")
        (P.seq name
          (P.seq (mixins sf)
            (P.wrap
              (P.sepBy (P.altList [Field sf n, Method sf n, memberError sf])
                (P.opt blank))
              (key "\x7b") (key "\x7d"))))).map
        fun r src =>
          match r with
          | (nm, mix, mems) =>
            match recoverSplit mems with
            | (mp, mk) => .Mixin nm mix mk (some mp) (some src))

def Field (sf : Option String) : Nat → P Node
  | 0 => P.failP
  | n + 1 => node sf
      ((P.seq (P.alt (P.result (key "var") false) (P.result (key "const") true))
        (P.seq (P.check (key "property"))
          (P.seq name (P.opt (P.thenP (key "=") (Expression sf n)))))).map
        fun r src =>
          match r with | (ro, pr, nm, v) => .Field ro pr nm v (some src))

def Method (sf : Option String) : Nat → P Node
  | 0 => P.failP
  | n + 1 => node sf
      ((P.seq (P.check (key "override"))
        (P.seq (P.thenP (key "method") (P.alt name (operator ALL_OPERATORS)))
          (P.seq (parameters sf)
            (P.altList
              [(methodEqBranch (Expression sf n)).map MBody.node,
               P.result (key "native") MBody.nativeB,
               (P.opt (Body sf n)).map fun b =>
                 match b with
                 | some b' => MBody.node b'
                 | none => MBody.absent])))).map
        fun r src =>
          match r with | (ov, nm, ps, b) => .Method ov nm ps b (some src))

def Constructor (sf : Option String) : Nat → P Node
  | 0 => P.failP
  | n + 1 => node sf
      ((P.thenP (key "constructor")
        (P.seq (parameters sf)
          (P.seq
            (P.opt (P.thenP (key "=")
              (P.seq
                (P.alt (P.result (key "self") false) (P.result (key "super") true))
                (unamedArguments sf n))))
            (P.fallback (Body sf n) (.Body [] none))))).map
        fun r src =>
          match r with | (ps, bc, b) => .Constructor ps bc b (some src))

def Fixture (sf : Option String) : Nat → P Node
  | 0 => P.failP
  | n + 1 => node sf
      ((P.thenP (key "fixture") (Body sf n)).map
        fun b src => .Fixture b (some src))

def Sentence (sf : Option String) : Nat → P Node
  | 0 => P.failP
  | n + 1 => P.altList [Variable sf n, Return sf n, Assignment sf n, Expression sf n]

def Variable (sf : Option String) : Nat → P Node
  | 0 => P.failP
  | n + 1 => node sf
      ((P.seq (P.alt (P.result (key "var") false) (P.result (key "const") true))
        (P.seq name (P.opt (P.thenP (key "=") (Expression sf n))))).map
        fun r src =>
          match r with | (ro, nm, v) => .Variable ro nm v (some src))

def Return (sf : Option String) : Nat → P Node
  | 0 => P.failP
  | n + 1 => node sf
      ((P.thenP (key "return") (P.opt (Expression sf n))).map
        fun v src => .Return v (some src))

def Assignment (sf : Option String) : Nat → P Node
  | 0 => P.failP
  | n + 1 => node sf
      ((P.seq (Reference sf)
        (P.seq (operator ASSIGNATION_OPERATORS) (Expression sf n))).map
        fun r src =>
          match r with
          | (target, assignation, value) =>
            .Assignment target (assignmentValue target assignation value) (some src))

def Expression (sf : Option String) : Nat → P Node
  | 0 => P.failP
  | n + 1 => infixOperation sf n 0

def primaryExpression (sf : Option String) : Nat → P Node
  | 0 => P.failP
  | n + 1 => P.altList
      [Self sf, Super sf n, If sf n, NewP sf n, Throw sf n, Try sf n,
       Literal sf n, Reference sf,
       P.wrap (Expression sf n) (key "(") (key ")")]

def Super (sf : Option String) : Nat → P Node
  | 0 => P.failP
  | n + 1 => node sf
      ((P.thenP (key "super") (unamedArguments sf n)).map
        fun args src => .Super args (some src))

def NewP (sf : Option String) : Nat → P Node
  | 0 => P.failP
  | n + 1 => P.alt
      (node sf
        ((P.thenP (key "new")
          (node sf
            ((P.seq
              (P.seq (FullyQualifiedReference sf)
                (P.alt (unamedArguments sf n) (namedArguments sf n)))
              (newMixins sf)).map
              fun r src =>
                match r with
                | ((sc, scargs), mix) =>
                  .Singleton none (some sc) scargs mix [] none (some src)))).map
          fun s src => .Literal (.nodeV s) (some src)))
      (node sf
        ((P.thenP (key "new")
          (P.seq (FullyQualifiedReference sf)
            (P.alt (unamedArguments sf n) (namedArguments sf n)))).map
          fun r src => match r with | (inst, args) => .New inst args (some src)))

def If (sf : Option String) : Nat → P Node
  | 0 => P.failP
  | n + 1 => node sf
      ((P.thenP (key "if")
        (P.seq (P.wrap (Expression sf n) (key "(") (key ")"))
          (P.seq (inlineableBody sf n)
            (P.opt (P.thenP (key "else") (inlineableBody sf n)))))).map
        fun r src => match r with | (c, t, e) => .If c t e (some src))

def Throw (sf : Option String) : Nat → P Node
  | 0 => P.failP
  | n + 1 => node sf
      ((P.thenP (key "throw") (Expression sf n)).map
        fun e src => .Throw e (some src))

def Try (sf : Option String) : Nat → P Node
  | 0 => P.failP
  | n + 1 => node sf
      ((P.thenP (key "try")
        (P.seq (inlineableBody sf n)
          (P.seq (P.many (Catch sf n))
            (P.opt (P.thenP (key "then always") (inlineableBody sf n)))))).map
        fun r src => match r with | (b, cs, alw) => .Try b cs alw (some src))

def Catch (sf : Option String) : Nat → P Node
  | 0 => P.failP
  | n + 1 => node sf
      ((P.thenP (key "catch")
        (P.seq (Parameter sf)
          (P.seq (P.opt (P.thenP (key ":") (Reference sf)))
            (inlineableBody sf n)))).map
        fun r src => match r with | (pa, pt, b) => .Catch pa pt b (some src))

def Send (sf : Option String) : Nat → P Node
  | 0 => P.failP
  | n + 1 =>
      (P.seq P.index
        (P.seq (primaryExpression sf n)
          (P.atLeast
            (P.seq (P.thenP (key ".") name)
              (P.seq
                (P.alt (unamedArguments sf n) (P.timesP (closureLiteral sf n) 1))
                P.index))
            1))).map
        fun r =>
          match r with
          | (start, initial, calls) => calls.foldl (sendFoldStep start) initial

def prefixOperation (sf : Option String) : Nat → P Node
  | 0 => P.failP
  | n + 1 =>
      (P.seq (P.many (P.seq P.index (operator (PREFIX_OPERATORS.map Prod.fst))))
        (P.seq (P.alt (Send sf n) (primaryExpression sf n)) P.index)).map
        fun r =>
          match r with
          | (calls, initial, stop) => calls.foldr (prefixFoldStep stop) initial

def infixOperation (sf : Option String) : Nat → Nat → P Node
  | 0, _ => P.failP
  | n + 1, precedenceLevel =>
      let argument :=
        if precedenceLevel < INFIX_OPERATORS.length - 1 then
          infixOperation sf n (precedenceLevel + 1)
        else prefixOperation sf n
      (P.seq P.index
        (P.seq argument
          (P.many
            (P.seq (operator (INFIX_OPERATORS.getD precedenceLevel []))
              (P.seq (P.timesP argument 1) P.index))))).map
        fun r =>
          match r with
          | (start, initial, calls) => calls.foldl (infixFoldStep start) initial

def Literal (sf : Option String) : Nat → P Node
  | 0 => P.failP
  | n + 1 => P.alt (closureLiteral sf n)
      (node sf
        ((P.altList
          [P.result (key "null") LitV.nullV,
           P.result (key "true") (LitV.boolV true),
           P.result (key "false") (LitV.boolV false),
           numberLit.map LitV.numV,
           (P.wrap (P.sepBy (Expression sf n) (key ",")) (key "[") (key "]")).map
             fun args => LitV.nodeV (.New (.Reference "wollok.lang.List" none) args none),
           (P.wrap (P.sepBy (Expression sf n) (key ",")) (key "#\x7b") (key "\x7d")).map
             fun args => LitV.nodeV (.New (.Reference "wollok.lang.Set" none) args none),
           stringLiteral.map LitV.strV,
           (Singleton sf n).map fun s => LitV.nodeV s]).map
          fun v src => .Literal v (some src)))

def closureLiteral (sf : Option String) : Nat → P Node
  | 0 => P.failP
  | n + 1 =>
      (P.mark
        (P.wrap
          (P.seq
            (P.fallback (P.skipP (P.sepBy (Parameter sf) (key ",")) (key "=>")) [])
            (P.many (P.skipP (Sentence sf n) sentenceSep)))
          (key "\x7b") (key "\x7d"))).bind
        fun r =>
          match r with
          | (start, (ps, ss), stop) => fun inp i =>
            some
              (buildClosure ps ss
                (some (String.mk ((inp.take stop.offset).drop start.offset)))
                (some { start := start, stop := stop, file := sf }),
               i)

def Body (sf : Option String) : Nat → P Node
  | 0 => P.failP
  | n + 1 => node sf
      ((P.wrap (P.many (P.skipP (Sentence sf n) sentenceSep)) (key "\x7b") (key "\x7d")).map
        fun ss src => .Body ss (some src))

def inlineableBody (sf : Option String) : Nat → P Node
  | 0 => P.failP
  | n + 1 => P.alt (Body sf n)
      (node sf ((P.timesP (Sentence sf n) 1).map fun ss src => .Body ss (some src)))

def unamedArguments (sf : Option String) : Nat → P (List Node)
  | 0 => P.failP
  | n + 1 => P.wrap (P.sepBy (Expression sf n) (key ",")) (key "(") (key ")")

def namedArguments (sf : Option String) : Nat → P (List Node)
  | 0 => P.failP
  | n + 1 => P.wrap (P.sepBy (NamedArgument sf n) (key ",")) (key "(") (key ")")

def NamedArgument (sf : Option String) : Nat → P Node
  | 0 => P.failP
  | n + 1 => node sf
      ((P.seq name (P.thenP (key "=") (Expression sf n))).map
        fun r src => match r with | (nm, v) => .NamedArgument nm v (some src))

end

/-- Lines 96–105: the `File` parser proper.  `fileName` is the argument
captured by the closure (it determines the package `name`); `ambient` is
the value of the module-global `SOURCE_FILE` at run time, which the
`node` combinator reads when nodes are built. -/
def File (fileName : String) (ambient : Option String) (fuel : Nat) : P Node :=
  node ambient
    ((P.skipP
      (P.seq (P.pureP (fileBaseName fileName))
        (P.seq
          (P.skipP (P.sepBy (ImportP ambient) (P.opt blank)) (P.opt blank))
          (P.sepBy (Entity ambient fuel) (P.opt blank))))
      (P.opt blank)).map
      fun r src =>
        match r with | (nm, ims, mems) => .Package nm ims mems none (some src))

/-- Lines 38–39 and 96–97: `File` first assigns the module-global
`SOURCE_FILE := fileName`, then returns the parser.  The returned parser
reads the global when it runs, so it is modelled as a function of the
ambient global value; the first component is the new global state. -/
def FileCall (fileName : String) (state : Option String) :
    Option String × (Option String → Nat → P Node) :=
  (some fileName, fun ambient fuel => File fileName ambient fuel)

-- ── Projections used to state concrete-parse facts ─────────────────────

/-- Run a parser on a string from offset 0. -/
def runP (p : P α) (s : String) : Option (α × Nat) := p s.data 0

/-- The name of a named node, where defined. -/
def nameOf : Node → Option String
  | .Package n _ _ _ _ => some n
  | .Reference n _ => some n
  | .Class n _ _ _ _ _ => some n
  | .Singleton n _ _ _ _ _ _ => n
  | .Mixin n _ _ _ _ => some n
  | .Program n _ _ => some n
  | .Describe n _ _ _ => some n
  | .Test _ n _ _ => some n
  | .Variable _ n _ _ => some n
  | .Field _ _ n _ _ => some n
  | .Method _ n _ _ _ => some n
  | .NamedArgument n _ _ => some n
  | .Parameter n _ _ => some n
  | _ => none

def mixinsOf : Node → List Node
  | .Class _ _ m _ _ _ => m
  | .Singleton _ _ _ m _ _ _ => m
  | .Mixin _ m _ _ _ => m
  | _ => []

def membersOf : Node → List Node
  | .Package _ _ m _ _ => m
  | .Class _ _ _ m _ _ => m
  | .Singleton _ _ _ _ m _ _ => m
  | .Mixin _ _ m _ _ => m
  | .Describe _ m _ _ => m
  | _ => []

def problemsOf : Node → Option (List Node)
  | .Package _ _ _ p _ => p
  | .Class _ _ _ _ p _ => p
  | .Singleton _ _ _ _ _ p _ => p
  | .Mixin _ _ _ p _ => p
  | .Describe _ _ p _ => p
  | _ => none

/-- (code, start offset, end offset) of a `ParseError`. -/
def problemSummary : Node → Option (String × Nat × Nat)
  | .ParseError c s => some (c, s.start.offset, s.stop.offset)
  | _ => none

def mixinNamesOf (n : Node) : List String :=
  (mixinsOf n).filterMap nameOf

def memberNamesOf (n : Node) : List String :=
  (membersOf n).filterMap nameOf

/-- The `code` attribute of a closure literal. -/
def codeOf : Node → Option String
  | .Closure _ _ c _ => c
  | _ => none

/-- The body of a method, when it is a `Body` node. -/
def methodBodyOf : Node → Option Node
  | .Method _ _ _ (.node b) _ => some b
  | _ => none

def sentencesOf : Node → List Node
  | .Body ss _ => ss
  | _ => []

/-- The source of the first sentence of an expression-bodied method's
body, when that sentence is a `Return` (`some none` = a Return carrying
no source at all). -/
def firstReturnSrc (n : Node) : Option (Option Src) :=
  match methodBodyOf n with
  | some b =>
    match sentencesOf b with
    | .Return _ src :: _ => some src
    | _ => none
  | none => none

/-- The `name` of the `Singleton` value of a `Literal` node. -/
def literalSingletonName : Node → Option (Option String)
  | .Literal (.nodeV (.Singleton nm _ _ _ _ _ _)) _ => some nm
  | _ => none

-- ══════════════════════════════════════════════════════════════════════
-- Proof infrastructure: inversion lemmas for the combinators, and the
-- monotonicity / progress predicates on parsers
-- ══════════════════════════════════════════════════════════════════════

/-- A parser never moves the cursor backwards. -/
def Mono (p : P α) : Prop :=
  ∀ inp i a j, p inp i = some (a, j) → i ≤ j

/-- A parser consumes at least one character whenever it succeeds. -/
def Prog (p : P α) : Prop :=
  ∀ inp i a j, p inp i = some (a, j) → i < j

namespace P

theorem map_eq_some {f : α → β} {p : P α} {inp : List Char} {i : Nat}
    {b : β} {j : Nat} :
    P.map f p inp i = some (b, j) ↔ ∃ a, p inp i = some (a, j) ∧ b = f a := by
  unfold P.map
  rw [Option.map_eq_some']
  constructor
  · rintro ⟨⟨a, k⟩, ha, he⟩
    rw [Prod.mk.injEq] at he
    obtain ⟨hb, hk⟩ := he
    subst hk
    exact ⟨a, ha, hb.symm⟩
  · rintro ⟨a, ha, rfl⟩
    exact ⟨(a, j), ha, rfl⟩

theorem bind_eq_some {p : P α} {f : α → P β} {inp : List Char} {i : Nat}
    {b : β} {j : Nat} :
    P.bind p f inp i = some (b, j) ↔
      ∃ a k, p inp i = some (a, k) ∧ f a inp k = some (b, j) := by
  unfold P.bind
  rw [Option.bind_eq_some]
  constructor
  · rintro ⟨⟨a, k⟩, ha, he⟩
    exact ⟨a, k, ha, he⟩
  · rintro ⟨a, k, ha, he⟩
    exact ⟨(a, k), ha, he⟩

theorem seq_eq_some {p : P α} {q : P β} {inp : List Char} {i : Nat}
    {r : α × β} {j : Nat} :
    P.seq p q inp i = some (r, j) ↔
      ∃ k, p inp i = some (r.1, k) ∧ q inp k = some (r.2, j) := by
  unfold P.seq
  rw [bind_eq_some]
  constructor
  · rintro ⟨a, k, ha, hb⟩
    rw [map_eq_some] at hb
    obtain ⟨b, hb', rfl⟩ := hb
    exact ⟨k, ha, hb'⟩
  · rintro ⟨k, ha, hb⟩
    exact ⟨r.1, k, ha, by rw [map_eq_some]; exact ⟨r.2, hb, rfl⟩⟩

theorem alt_eq_some {p q : P α} {inp : List Char} {i : Nat} {r : α × Nat} :
    P.alt p q inp i = some r ↔
      p inp i = some r ∨ (p inp i = none ∧ q inp i = some r) := by
  unfold P.alt
  cases h : p inp i <;> simp

theorem notFollowedBy_eq_some {p : P α} {inp : List Char} {i : Nat}
    {r : Unit × Nat} :
    P.notFollowedBy p inp i = some r ↔ p inp i = none ∧ r = ((), i) := by
  unfold P.notFollowedBy
  cases h : p inp i <;> simp [eq_comm]

theorem thenP_eq_some {p : P α} {q : P β} {inp : List Char} {i : Nat}
    {b : β} {j : Nat} :
    P.thenP p q inp i = some (b, j) ↔
      ∃ a k, p inp i = some (a, k) ∧ q inp k = some (b, j) := by
  unfold P.thenP
  rw [map_eq_some]
  constructor
  · rintro ⟨r, hr, rfl⟩
    rw [seq_eq_some] at hr
    obtain ⟨k, h1, h2⟩ := hr
    exact ⟨r.1, k, h1, h2⟩
  · rintro ⟨a, k, ha, hb⟩
    exact ⟨(a, b), by rw [seq_eq_some]; exact ⟨k, ha, hb⟩, rfl⟩

theorem skipP_eq_some {p : P α} {q : P β} {inp : List Char} {i : Nat}
    {a : α} {j : Nat} :
    P.skipP p q inp i = some (a, j) ↔
      ∃ b k, p inp i = some (a, k) ∧ q inp k = some (b, j) := by
  unfold P.skipP
  rw [map_eq_some]
  constructor
  · rintro ⟨r, hr, rfl⟩
    rw [seq_eq_some] at hr
    obtain ⟨k, h1, h2⟩ := hr
    exact ⟨r.2, k, h1, h2⟩
  · rintro ⟨b, k, ha, hb⟩
    exact ⟨(a, b), by rw [seq_eq_some]; exact ⟨k, ha, hb⟩, rfl⟩

theorem timesP_one_eq_some {p : P α} {inp : List Char} {i : Nat}
    {l : List α} {j : Nat} :
    P.timesP p 1 inp i = some (l, j) ↔ ∃ a, p inp i = some (a, j) ∧ l = [a] := by
  show P.map _ (P.seq p (P.pureP [])) inp i = _ ↔ _
  rw [map_eq_some]
  constructor
  · rintro ⟨⟨a, as⟩, hr, rfl⟩
    rw [seq_eq_some] at hr
    obtain ⟨k, h1, h2⟩ := hr
    have h2' : as = [] ∧ k = j := by
      have := Option.some.inj h2
      rw [Prod.mk.injEq] at this
      exact ⟨this.1.symm, this.2⟩
    obtain ⟨rfl, rfl⟩ := h2'
    exact ⟨a, h1, rfl⟩
  · rintro ⟨a, ha, rfl⟩
    exact ⟨(a, []), by rw [seq_eq_some]; exact ⟨j, ha, rfl⟩, rfl⟩

theorem index_eq (inp : List Char) (i : Nat) :
    P.index inp i = some (posAt inp i, i) := rfl

theorem posAt_offset (inp : List Char) (i : Nat) : (posAt inp i).offset = i := rfl

-- Monotonicity lemmas

theorem mono_pureP (a : α) : Mono (P.pureP a) := by
  intro inp i b j h
  cases h
  exact Nat.le_refl _

theorem mono_failP : Mono (P.failP (α := α)) := by
  intro inp i b j h
  cases h

theorem mono_map (f : α → β) {p : P α} (hp : Mono p) : Mono (P.map f p) := by
  intro inp i b j h
  rw [map_eq_some] at h
  obtain ⟨a, ha, rfl⟩ := h
  exact hp inp i a j ha

theorem mono_seq {p : P α} {q : P β} (hp : Mono p) (hq : Mono q) :
    Mono (P.seq p q) := by
  intro inp i r j h
  rw [seq_eq_some] at h
  obtain ⟨k, h1, h2⟩ := h
  exact Nat.le_trans (hp inp i _ k h1) (hq inp k _ j h2)

theorem mono_thenP {p : P α} {q : P β} (hp : Mono p) (hq : Mono q) :
    Mono (P.thenP p q) := by
  intro inp i r j h
  rw [thenP_eq_some] at h
  obtain ⟨a, k, h1, h2⟩ := h
  exact Nat.le_trans (hp inp i _ k h1) (hq inp k _ j h2)

theorem mono_skipP {p : P α} {q : P β} (hp : Mono p) (hq : Mono q) :
    Mono (P.skipP p q) := by
  intro inp i r j h
  rw [skipP_eq_some] at h
  obtain ⟨b, k, h1, h2⟩ := h
  exact Nat.le_trans (hp inp i _ k h1) (hq inp k _ j h2)

theorem mono_alt {p q : P α} (hp : Mono p) (hq : Mono q) : Mono (P.alt p q) := by
  intro inp i r j h
  rw [alt_eq_some] at h
  rcases h with h | ⟨_, h⟩
  · exact hp inp i r j h
  · exact hq inp i r j h

theorem mono_altList {ps : List (P α)} (h : ∀ p ∈ ps, Mono p) :
    Mono (P.altList ps) := by
  induction ps with
  | nil => exact mono_failP
  | cons p ps ih =>
    exact mono_alt (h p (List.mem_cons_self p ps))
      (ih fun q hq => h q (List.mem_cons_of_mem p hq))

theorem mono_fallback {p : P α} (hp : Mono p) (a : α) : Mono (P.fallback p a) :=
  mono_alt hp (mono_pureP a)

theorem mono_opt {p : P α} (hp : Mono p) : Mono (P.opt p) :=
  mono_fallback (mono_map some hp) none

theorem mono_result {p : P α} (hp : Mono p) (b : β) : Mono (P.result p b) :=
  mono_map _ hp

theorem mono_check {p : P α} (hp : Mono p) : Mono (P.check p) :=
  mono_fallback (mono_result hp true) false

theorem mono_notFollowedBy (p : P α) : Mono (P.notFollowedBy p) := by
  intro inp i r j h
  rw [notFollowedBy_eq_some] at h
  obtain ⟨-, h⟩ := h
  cases h
  exact Nat.le_refl _

theorem snd_of_some_eq {a b : α} {i j : Nat} (h : some (a, i) = some (b, j)) :
    i = j :=
  congrArg Prod.snd (Option.some.inj h)

theorem mono_str (s : String) : Mono (P.str s) := by
  intro inp i r j h
  unfold P.str at h
  split at h
  · have := snd_of_some_eq h
    omega
  · cases h

theorem mono_anyP : Mono P.anyP := by
  intro inp i r j h
  unfold P.anyP at h
  split at h
  · have := snd_of_some_eq h
    omega
  · cases h

theorem mono_charIf (f : Char → Bool) : Mono (P.charIf f) := by
  intro inp i r j h
  unfold P.charIf at h
  split at h
  · split at h
    · have := snd_of_some_eq h
      omega
    · cases h
  · cases h

theorem mono_takeWhileP (f : Char → Bool) : Mono (P.takeWhileP f) := by
  intro inp i r j h
  unfold P.takeWhileP at h
  have := snd_of_some_eq h
  omega

theorem mono_takeWhile1 (f : Char → Bool) : Mono (P.takeWhile1 f) := by
  intro inp i r j h
  unfold P.takeWhile1 at h
  split at h
  · cases h
  · have := snd_of_some_eq h
    omega

theorem mono_index : Mono P.index := by
  intro inp i r j h
  have := snd_of_some_eq h
  omega

theorem mono_manyAux {p : P α} (hp : Mono p) :
    ∀ fuel inp i, i ≤ (P.manyAux p fuel inp i).2 := by
  intro fuel
  induction fuel with
  | zero => intro inp i; exact Nat.le_refl _
  | succ n ih =>
    intro inp i
    unfold P.manyAux
    cases h : p inp i with
    | none => exact Nat.le_refl _
    | some r =>
      by_cases hij : i < r.2
      · simpa [h, hij] using Nat.le_trans (Nat.le_of_lt hij) (ih inp r.2)
      · simp [h, hij]

theorem mono_many {p : P α} (hp : Mono p) : Mono (P.many p) := by
  intro inp i r j h
  unfold P.many at h
  have h2 : (P.manyAux p (inp.length + 1) inp i).2 = j :=
    congrArg Prod.snd (Option.some.inj h)
  rw [← h2]
  exact mono_manyAux hp _ inp i

theorem mono_timesP {p : P α} (hp : Mono p) : ∀ n, Mono (P.timesP p n) := by
  intro n
  induction n with
  | zero => exact mono_pureP []
  | succ m ih => exact mono_map _ (mono_seq hp ih)

theorem mono_atLeast {p : P α} (hp : Mono p) (n : Nat) : Mono (P.atLeast p n) :=
  mono_map _ (mono_seq (mono_timesP hp n) (mono_many hp))

theorem mono_sepBy1 {p : P α} {sep : P β} (hp : Mono p) (hsep : Mono sep) :
    Mono (P.sepBy1 p sep) :=
  mono_map _ (mono_seq hp (mono_many (mono_thenP hsep hp)))

theorem mono_sepBy {p : P α} {sep : P β} (hp : Mono p) (hsep : Mono sep) :
    Mono (P.sepBy p sep) :=
  mono_fallback (mono_sepBy1 hp hsep) []

theorem mono_wrap {p : P α} {l : P β} {r : P γ}
    (hp : Mono p) (hl : Mono l) (hr : Mono r) : Mono (P.wrap p l r) :=
  mono_thenP hl (mono_skipP hp hr)

theorem mono_trim {p : P α} {q : P β} (hp : Mono p) (hq : Mono q) :
    Mono (P.trim p q) :=
  mono_wrap hp hq hq

theorem mono_mark {p : P α} (hp : Mono p) : Mono (P.mark p) :=
  mono_map _ (mono_seq mono_index (mono_seq hp mono_index))

-- Progress lemmas

theorem prog_anyP : Prog P.anyP := by
  intro inp i r j h
  unfold P.anyP at h
  split at h
  · have := snd_of_some_eq h
    omega
  · cases h

theorem prog_str {s : String} (hs : s.data ≠ []) : Prog (P.str s) := by
  intro inp i r j h
  unfold P.str at h
  split at h
  · have h1 := snd_of_some_eq h
    have h2 : 0 < s.data.length := List.length_pos.mpr hs
    omega
  · cases h

theorem prog_map (f : α → β) {p : P α} (hp : Prog p) : Prog (P.map f p) := by
  intro inp i b j h
  rw [map_eq_some] at h
  obtain ⟨a, ha, rfl⟩ := h
  exact hp inp i a j ha

theorem prog_seq_left {p : P α} {q : P β} (hp : Prog p) (hq : Mono q) :
    Prog (P.seq p q) := by
  intro inp i r j h
  rw [seq_eq_some] at h
  obtain ⟨k, h1, h2⟩ := h
  exact Nat.lt_of_lt_of_le (hp inp i _ k h1) (hq inp k _ j h2)

theorem prog_seq_right {p : P α} {q : P β} (hp : Mono p) (hq : Prog q) :
    Prog (P.seq p q) := by
  intro inp i r j h
  rw [seq_eq_some] at h
  obtain ⟨k, h1, h2⟩ := h
  exact Nat.lt_of_le_of_lt (hp inp i _ k h1) (hq inp k _ j h2)

theorem prog_alt {p q : P α} (hp : Prog p) (hq : Prog q) : Prog (P.alt p q) := by
  intro inp i r j h
  rw [alt_eq_some] at h
  rcases h with h | ⟨-, h⟩
  · exact hp inp i r j h
  · exact hq inp i r j h

theorem prog_thenP {p : P α} {q : P β} (hp : Mono p) (hq : Prog q) :
    Prog (P.thenP p q) := by
  intro inp i r j h
  rw [thenP_eq_some] at h
  obtain ⟨a, k, h1, h2⟩ := h
  exact Nat.lt_of_le_of_lt (hp inp i _ k h1) (hq inp k _ j h2)

theorem prog_timesP_one {p : P α} (hp : Prog p) : Prog (P.timesP p 1) := by
  intro inp i r j h
  rw [timesP_one_eq_some] at h
  obtain ⟨a, ha, rfl⟩ := h
  exact hp inp i a j ha

theorem prog_atLeast_one {p : P α} (hmono : Mono p) (hp : Prog p) :
    Prog (P.atLeast p 1) := by
  intro inp i r j h
  unfold P.atLeast at h
  rw [map_eq_some] at h
  obtain ⟨a, ha, rfl⟩ := h
  have := prog_seq_left (q := P.many p) (prog_timesP_one hp) (mono_many hmono)
  exact this inp i a j ha

end P

-- Monotonicity of the concrete lexical parsers

theorem mono_blockComment : Mono blockComment := by
  intro inp i r j h
  unfold blockComment at h
  split at h
  · split at h
    · have := P.snd_of_some_eq h
      omega
    · cases h
  · cases h

theorem mono_lineComment : Mono lineComment :=
  P.mono_map _ (P.mono_seq (P.mono_str _) (P.mono_takeWhileP _))

theorem mono_comment : Mono comment :=
  P.mono_alt mono_blockComment mono_lineComment

theorem mono_whitespaceP : Mono whitespaceP := P.mono_takeWhile1 _

theorem mono_blank : Mono blank :=
  P.mono_atLeast (P.mono_alt mono_comment mono_whitespaceP) 1

theorem mono_name : Mono name :=
  P.mono_map _ (P.mono_seq (P.mono_charIf _) (P.mono_takeWhileP _))

theorem mono_errorSkipUnit : Mono errorSkipUnit :=
  P.mono_alt
    (P.mono_map _ (P.mono_seq (P.mono_str _)
      (P.mono_seq (P.mono_takeWhileP _) (P.mono_str _))))
    P.mono_anyP

theorem prog_errorSkipUnit : Prog errorSkipUnit :=
  P.prog_alt
    (P.prog_map _ (P.prog_seq_left (P.prog_str (by decide))
      (P.mono_seq (P.mono_takeWhileP _) (P.mono_str _))))
    P.prog_anyP

-- ══════════════════════════════════════════════════════════════════════
-- The claims
-- ══════════════════════════════════════════════════════════════════════

/-- C1: for a compound assignment operator `X=` the parser's `Assignment`
action stores `Send(receiver = ref, message = X, args)`, with `args` a
one-element closure wrapping the right-hand side when `X` is lazy
(`||`, `&&`, `or`, `and`) and `[e]` otherwise; plain `=` stores the value
unchanged.  The last two conjuncts run the full sentence parser on
`x += 1` and `x ||= y`. -/
theorem claim_C1_compound_assignment :
    (∀ (target value : Node) (op : String),
      op ∈ ASSIGNATION_OPERATORS → op ≠ "=" →
      assignmentValue target op value =
        .Send target (dropLast1 op)
          (if dropLast1 op ∈ (["||", "&&", "or", "and"] : List String) then
            [Node.Closure [] [value] none none]
          else [value])
          none)
    ∧ (∀ target value, assignmentValue target "=" value = value)
    ∧ runP (Sentence none 30) "x += 1" =
        some
          (.Assignment (.Reference "x" (some ⟨⟨0, 1, 1⟩, ⟨1, 1, 2⟩, none⟩))
            (.Send (.Reference "x" (some ⟨⟨0, 1, 1⟩, ⟨1, 1, 2⟩, none⟩)) "+"
              [.Literal (.numV "1") (some ⟨⟨5, 1, 6⟩, ⟨6, 1, 7⟩, none⟩)] none)
            (some ⟨⟨0, 1, 1⟩, ⟨6, 1, 7⟩, none⟩), 6)
    ∧ runP (Sentence none 30) "x ||= y" =
        some
          (.Assignment (.Reference "x" (some ⟨⟨0, 1, 1⟩, ⟨1, 1, 2⟩, none⟩))
            (.Send (.Reference "x" (some ⟨⟨0, 1, 1⟩, ⟨1, 1, 2⟩, none⟩)) "||"
              [.Closure [] [.Reference "y" (some ⟨⟨6, 1, 7⟩, ⟨7, 1, 8⟩, none⟩)] none none]
              none)
            (some ⟨⟨0, 1, 1⟩, ⟨7, 1, 8⟩, none⟩), 7) := by
  refine ⟨?_, ?_, rfl, rfl⟩
  · intro t v op hmem hne
    simp only [ASSIGNATION_OPERATORS, List.mem_cons, List.not_mem_nil, or_false] at hmem
    rcases hmem with rfl | rfl | rfl | rfl | rfl | rfl | rfl | rfl
    · exact absurd rfl hne
    all_goals rfl
  · intro t v
    rfl

/-- C1 witness: the theorem applied at `x += 1`'s operator. -/
theorem claim_C1_witness :
    assignmentValue (.Reference "x" none) "+=" (.Literal (.numV "1") none) =
      .Send (.Reference "x" none) "+" [.Literal (.numV "1") none] none :=
  claim_C1_compound_assignment.1 (.Reference "x" none) (.Literal (.numV "1") none)
    "+=" (by decide) (by decide)

/-- C2: every infix fold step for a lazy operator builds a `Send` with a
single argument that is a zero-parameter closure whose body sentences are
exactly the parsed right-hand-side list; the rhs list always has exactly
one element because it comes from `argument.times(1)`; and the full
expression parser on `a || b` produces exactly that shape. -/
theorem claim_C2_lazy_operator_thunk :
    (∀ (start stop : Pos) (receiver rhs : Node) (msg : String),
      msg ∈ LAZY_OPERATORS →
      infixFoldStep start receiver (msg, [rhs], stop) =
        .Send receiver msg [Node.Closure [] [rhs] none none]
          (some { start := start, stop := stop, file := none }))
    ∧ (∀ (p : P Node) inp i l j, P.timesP p 1 inp i = some (l, j) →
        ∃ rhs, p inp i = some (rhs, j) ∧ l = [rhs])
    ∧ runP (Expression none 30) "a || b" =
        some
          (.Send (.Reference "a" (some ⟨⟨0, 1, 1⟩, ⟨1, 1, 2⟩, none⟩)) "||"
            [.Closure [] [.Reference "b" (some ⟨⟨5, 1, 6⟩, ⟨6, 1, 7⟩, none⟩)] none none]
            (some ⟨⟨0, 1, 1⟩, ⟨6, 1, 7⟩, none⟩), 6) := by
  refine ⟨?_, ?_, rfl⟩
  · intro start stop receiver rhs msg hm
    simp only [LAZY_OPERATORS, List.mem_cons, List.not_mem_nil, or_false] at hm
    rcases hm with rfl | rfl | rfl | rfl <;> rfl
  · intro p inp i l j h
    rw [P.timesP_one_eq_some] at h
    obtain ⟨a, ha, rfl⟩ := h
    exact ⟨a, ha, rfl⟩

/-- C2 witness: the lazy fold step at `a || b`'s operator. -/
theorem claim_C2_witness :
    infixFoldStep ⟨0, 1, 1⟩ (.Reference "a" none) ("||", [.Reference "b" none], ⟨6, 1, 7⟩) =
      .Send (.Reference "a" none) "||" [.Closure [] [.Reference "b" none] none none]
        (some ⟨⟨0, 1, 1⟩, ⟨6, 1, 7⟩, none⟩) :=
  claim_C2_lazy_operator_thunk.1 ⟨0, 1, 1⟩ ⟨6, 1, 7⟩ (.Reference "a" none)
    (.Reference "b" none) "||" (by decide)

/-- C3: whatever reference list a `mixed with` clause (or the `with`
chain of a `new` expression) parses in surface order, the stored `mixins`
list is its reverse; concretely, `class C mixed with A and B and C { }`
stores mixin names `[C, B, A]`, and `new A(1) with M1 with M2` stores
`[M2, M1]` on the singleton inside the produced literal. -/
theorem claim_C3_mixin_reversal :
    (∀ (sf : Option String) inp i l j,
      mixinsListed sf inp i = some (l, j) →
      mixins sf inp i = some (l.reverse, j))
    ∧ (∀ (sf : Option String) inp i l j,
        (P.atLeast (P.thenP (key "with") (Reference sf)) 1) inp i = some (l, j) →
        newMixins sf inp i = some (l.reverse, j))
    ∧ (runP (Entity none 30) "class C mixed with A and B and C \x7b \x7d").map
        (fun r => (mixinNamesOf r.1, r.2)) = some (["C", "B", "A"], 36)
    ∧ (runP (Expression none 30) "new A(1) with M1 with M2").map
        (fun r =>
          match r.1 with
          | .Literal (.nodeV s) _ => some (mixinNamesOf s, r.2)
          | _ => none) = some (some (["M2", "M1"], 24)) := by
  refine ⟨?_, ?_, rfl, rfl⟩
  · intro sf inp i l j h
    unfold mixins P.fallback
    rw [P.alt_eq_some]
    left
    rw [P.map_eq_some]
    exact ⟨l, h, rfl⟩
  · intro sf inp i l j h
    unfold newMixins
    rw [P.map_eq_some]
    exact ⟨l, h, rfl⟩

/-- C3 witness: the theorem applied to the parse of `mixed with A and B`. -/
theorem claim_C3_witness :
    mixins none "mixed with A and B".data 0 =
      some
        ([Node.Reference "A" (some ⟨⟨11, 1, 12⟩, ⟨12, 1, 13⟩, none⟩),
          Node.Reference "B" (some ⟨⟨17, 1, 18⟩, ⟨18, 1, 19⟩, none⟩)].reverse, 18) :=
  claim_C3_mixin_reversal.1 none "mixed with A and B".data 0
    [Node.Reference "A" (some ⟨⟨11, 1, 12⟩, ⟨12, 1, 13⟩, none⟩),
     Node.Reference "B" (some ⟨⟨17, 1, 18⟩, ⟨18, 1, 19⟩, none⟩)] 18 rfl

/-- C4: every body produced through the `= Expression` method-body
alternative is a one-sentence `Body` holding `Return(value)` whose source
is the value's own source; concretely, `class C { method m() = 1 + 2 }`
yields method `m` with no parameters and body `[Return(Send(1, "+", [2]))]`
whose `Body` span equals the `Send`'s span. -/
theorem claim_C4_expression_body :
    (∀ (expr : P Node) inp i b j,
      methodEqBranch expr inp i = some (b, j) →
      ∃ k v, expr inp k = some (v, j) ∧
        b = .Body [.Return (some v) none] (srcOf v))
    ∧ runP (Entity none 30) "class C \x7b method m() = 1 + 2 \x7d" =
        some
          (.Class "C" none []
            [.Method false "m" []
              (.node
                (.Body
                  [.Return
                    (some
                      (.Send (.Literal (.numV "1") (some ⟨⟨23, 1, 24⟩, ⟨24, 1, 25⟩, none⟩))
                        "+" [.Literal (.numV "2") (some ⟨⟨27, 1, 28⟩, ⟨28, 1, 29⟩, none⟩)]
                        (some ⟨⟨23, 1, 24⟩, ⟨28, 1, 29⟩, none⟩)))
                    none]
                  (some ⟨⟨23, 1, 24⟩, ⟨28, 1, 29⟩, none⟩)))
              (some ⟨⟨10, 1, 11⟩, ⟨28, 1, 29⟩, none⟩)]
            (some []) (some ⟨⟨0, 1, 1⟩, ⟨30, 1, 31⟩, none⟩), 30) := by
  refine ⟨?_, rfl⟩
  intro expr inp i b j h
  unfold methodEqBranch at h
  rw [P.thenP_eq_some] at h
  obtain ⟨a, k, h1, h2⟩ := h
  rw [P.map_eq_some] at h2
  obtain ⟨v, hv, rfl⟩ := h2
  exact ⟨k, v, hv, rfl⟩

/-- C4 witness: the theorem applied to the parse of `= 1`. -/
theorem claim_C4_witness :
    ∃ k v, Expression none 30 "= 1".data k = some (v, 3) ∧
      (Node.Body
        [.Return (some (.Literal (.numV "1") (some ⟨⟨2, 1, 3⟩, ⟨3, 1, 4⟩, none⟩))) none]
        (some ⟨⟨2, 1, 3⟩, ⟨3, 1, 4⟩, none⟩)) =
        .Body [.Return (some v) none] (srcOf v) :=
  claim_C4_expression_body.1 (Expression none 30) "= 1".data 0 _ 3 rfl

/-- Lexicographic (code-point) `≤` on character lists: the order
underlying the `localeCompare` model. -/
def lexLeB : List Char → List Char → Bool
  | [], _ => true
  | _ :: _, [] => false
  | a :: as, b :: bs =>
    if a < b then true else if b < a then false else lexLeB as bs

/-- Is the list sorted in descending lexicographic order? -/
def sortedDescLex : List String → Bool
  | [] => true
  | [_] => true
  | x :: y :: rest => lexLeB y.data x.data && sortedDescLex (y :: rest)

/-- Is the list sorted in descending order of length? -/
def sortedDescLen : List String → Bool
  | [] => true
  | [_] => true
  | x :: y :: rest => Nat.ble y.length x.length && sortedDescLen (y :: rest)

def isPrefixB : List Char → List Char → Bool
  | [], _ => true
  | _ :: _, [] => false
  | a :: as, b :: bs => a == b && isPrefixB as bs

/-- No element of the list is a proper prefix of a later element (so an
ordered alternation over the list always matches the longest operator
that fits). -/
def prefixOrderOK : List String → Bool
  | [] => true
  | x :: rest =>
    rest.all (fun y => x == y || !isPrefixB x.data y.data) && prefixOrderOK rest

/-- Index of the first occurrence of `s`. -/
def firstIdx (s : String) : List String → Nat
  | [] => 0
  | x :: rest => if x == s then 0 else firstIdx s rest + 1

/-- C5 counterexample: `ALL_OPERATORS` is *not* sorted descending by
length — `or` (length 2, at index 2) precedes `negate` (length 6, at
index 3), because the sort comparator is `localeCompare`
(lexicographic), not length. -/
theorem claim_C5_counterexample :
    sortedDescLen ALL_OPERATORS = false
    ∧ firstIdx "or" ALL_OPERATORS = 2
    ∧ firstIdx "negate" ALL_OPERATORS = 3
    ∧ "or".length < "negate".length :=
  ⟨by decide, by decide, by decide, by decide⟩

/-- C5 amended: `ALL_OPERATORS` is sorted in descending lexicographic
(`localeCompare`) order, not by length; that still guarantees that no
operator is a proper prefix of a later entry, which is what
longest-match needs, and `method === (x)` parses as a method named `===`
with parameter `x` (not `==` followed by a stray `=`). -/
theorem claim_C5_amended_operator_order :
    sortedDescLex ALL_OPERATORS = true
    ∧ prefixOrderOK ALL_OPERATORS = true
    ∧ runP (Method none 30) "method === (x)" =
        some
          (.Method false "==="
            [.Parameter "x" false (some ⟨⟨12, 1, 13⟩, ⟨13, 1, 14⟩, none⟩)]
            .absent (some ⟨⟨0, 1, 1⟩, ⟨14, 1, 15⟩, none⟩), 14) :=
  ⟨by decide, by decide, by rfl⟩

/-- C6: `recoverSplit` (the `recover` partition) moves exactly the
`ParseError` items of a mixed child list into `problems`, preserving the
order of the remaining well-formed children; every successful
`errorRecovery` parse consumes at least one character and reports a
problem whose span is exactly the consumed region; and the two recovery
scenarios behave as specified (well-formed siblings on both sides of the
malformed region are kept). -/
theorem claim_C6_error_recovery :
    (∀ l, recoverSplit l =
      (l.filter isParseError, l.filter (fun n => !isParseError n)))
    ∧ (∀ (sf : Option String) (code : String) (safewords : List String) inp i pr j,
        errorRecovery sf code safewords inp i = some (pr, j) →
        pr = .ParseError code
          { start := posAt inp i, stop := posAt inp j, file := sf } ∧ i < j)
    ∧ (runP (Entity none 30)
        "class C \x7b method ok()\x7b\x7d garbage method ok2()\x7b\x7d \x7d").map
        (fun r =>
          (memberNamesOf r.1, (problemsOf r.1).map (List.filterMap problemSummary), r.2)) =
        some (["ok", "ok2"], some [("malformedMember", 24, 31)], 48)
    ∧ (runP (Entity none 30)
        "package p \x7b class A \x7b\x7d @bogus class B \x7b\x7d \x7d").map
        (fun r =>
          (memberNamesOf r.1, (problemsOf r.1).map (List.filterMap problemSummary), r.2)) =
        some (["A", "B"], some [("malformedEntity", 23, 29)], 42) := by
  refine ⟨?_, ?_, rfl, rfl⟩
  · intro l
    induction l with
    | nil => rfl
    | cons n rest ih =>
      cases hn : isParseError n <;>
        simp [recoverSplit, ih, List.filter_cons, hn]
  · intro sf code safewords inp i pr j h
    unfold errorRecovery at h
    rw [P.map_eq_some] at h
    obtain ⟨⟨start, v, stop⟩, hmark, rfl⟩ := h
    unfold P.mark at hmark
    rw [P.map_eq_some] at hmark
    obtain ⟨⟨s1, v1, e1⟩, hseq, heq⟩ := hmark
    rw [Prod.mk.injEq, Prod.mk.injEq] at heq
    obtain ⟨rfl, rfl, rfl⟩ := heq
    rw [P.seq_eq_some] at hseq
    obtain ⟨k, hidx1, hseq2⟩ := hseq
    rw [P.seq_eq_some] at hseq2
    obtain ⟨k2, hq, hidx2⟩ := hseq2
    have hi1 : start = posAt inp i ∧ k = i := by
      have := Option.some.inj hidx1
      rw [Prod.mk.injEq] at this
      exact ⟨this.1.symm, this.2.symm⟩
    obtain ⟨rfl, rfl⟩ := hi1
    have hi2 : stop = posAt inp k2 ∧ j = k2 := by
      have := Option.some.inj hidx2
      rw [Prod.mk.injEq] at this
      exact ⟨this.1.symm, this.2.symm⟩
    obtain ⟨rfl, rfl⟩ := hi2
    have hprog :
        Prog (P.atLeast
          (P.thenP (P.notFollowedBy (P.altList (safewords.map key))) errorSkipUnit) 1) :=
      P.prog_atLeast_one
        (P.mono_thenP (P.mono_notFollowedBy _) mono_errorSkipUnit)
        (P.prog_thenP (P.mono_notFollowedBy _) prog_errorSkipUnit)
    exact ⟨rfl, hprog _ _ _ _ hq⟩

/-- C6 witness: the error-recovery inversion applied to the parse of
`garbage method` at class-member position. -/
theorem claim_C6_witness :
    (Node.ParseError "malformedMember"
        { start := ⟨0, 1, 1⟩, stop := ⟨7, 1, 8⟩, file := none } =
      .ParseError "malformedMember"
        { start := posAt "garbage method".data 0,
          stop := posAt "garbage method".data 7, file := none })
    ∧ 0 < 7 :=
  claim_C6_error_recovery.2.1 none "malformedMember"
    ["method", "constructor", "var", "const", "\x7d"]
    "garbage method".data 0 _ 7 rfl

/-- C7 counterexample: the `Return` synthesized for an expression-bodied
method carries no source at all, and the `Send` built by infix-operator
folding carries a source without the `file` field even when the current
file is set — so not every produced node carries a populated
`{ start, end, file }` source. -/
theorem claim_C7_counterexample :
    (runP (Method (some "f.wlk") 30) "method m() = 1").map
        (fun r => firstReturnSrc r.1) = some (some none)
    ∧ (runP (Expression (some "f.wlk") 30) "1 + 2").map
        (fun r => (srcOf r.1).map Src.file) = some (some none) :=
  ⟨rfl, rfl⟩

/-- C7 amended: every node built through the `node` combinator carries a
populated source `{ start, end, file }` whose `file` is the current
source file and whose offsets satisfy `start.offset ≤ end.offset`
(synthesized nodes — the expression-body `Return`, desugaring closures,
and the fold-built `Send`s, which get `{start, end}` without `file` —
are the exceptions recorded in the counterexample). -/
theorem claim_C7_amended_node_source :
    ∀ (sf : Option String) (p : P (Src → Node)), Mono p →
    ∀ inp i nd j, node sf p inp i = some (nd, j) →
    ∃ (f : Src → Node) (src : Src), nd = f src ∧ src.file = sf ∧
      src.start.offset ≤ src.stop.offset ∧ i ≤ src.start.offset ∧
      src.stop.offset = j ∧ src.start = posAt inp src.start.offset ∧
      src.stop = posAt inp j := by
  intro sf p hp inp i nd j h
  unfold node at h
  rw [P.map_eq_some] at h
  obtain ⟨⟨start, f, stop⟩, hseq, rfl⟩ := h
  rw [P.seq_eq_some] at hseq
  obtain ⟨k, h1, h2⟩ := hseq
  rw [P.thenP_eq_some] at h1
  obtain ⟨ob, k0, hob, hidx⟩ := h1
  have hidx' := Option.some.inj hidx
  rw [Prod.mk.injEq] at hidx'
  have h1a : start = posAt inp k0 := hidx'.1.symm
  have h1b : k = k0 := hidx'.2.symm
  rw [P.seq_eq_some] at h2
  obtain ⟨k1, hpf, hidx2⟩ := h2
  have hidx2' := Option.some.inj hidx2
  rw [Prod.mk.injEq] at hidx2'
  have h2a : stop = posAt inp k1 := hidx2'.1.symm
  have h2b : j = k1 := hidx2'.2.symm
  have hpf' : p inp k0 = some (f, k1) := by
    rw [← h1b]
    exact hpf
  have hmono1 : i ≤ k0 := P.mono_opt mono_blank inp i ob k0 hob
  have hmono2 : k0 ≤ k1 := hp inp k0 f k1 hpf'
  subst h1a
  subst h2a
  refine ⟨f, { start := posAt inp k0, stop := posAt inp k1, file := sf },
    rfl, rfl, hmono2, hmono1, h2b.symm, rfl, ?_⟩
  rw [h2b]

/-- C7 witness: the amended invariant applied to the `Reference` parser
on input `x` with the file set. -/
theorem claim_C7_witness :
    ∃ (f : Src → Node) (src : Src),
      Node.Reference "x" (some ⟨⟨0, 1, 1⟩, ⟨1, 1, 2⟩, some "f.wlk"⟩) = f src ∧
      src.file = some "f.wlk" ∧
      src.start.offset ≤ src.stop.offset ∧ 0 ≤ src.start.offset ∧
      src.stop.offset = 1 ∧ src.start = posAt "x".data src.start.offset ∧
      src.stop = posAt "x".data 1 :=
  claim_C7_amended_node_source (some "f.wlk")
    (P.map (fun r => match r with | nm => fun src => Node.Reference nm (some src)) name)
    (P.mono_map _ mono_name) "x".data 0 _ 1 rfl

/-- C8: the code keeps the current file name in the module-global
`SOURCE_FILE`, assigned by `File` and read when nodes are built.  Calling
`File("a.wlk")`, then `File("b.wlk")`, then running the first parser
makes its nodes record `b.wlk`; running it before the second call records
`a.wlk`.  So the same (file name, source text) pair yields different
results depending on interleaved `File` calls, contradicting the claim. -/
theorem claim_C8_module_state :
    (FileCall "a.wlk" none).1 = some "a.wlk"
    ∧ (runP ((FileCall "a.wlk" none).2 (FileCall "b.wlk" (FileCall "a.wlk" none).1).1 30)
        "object o \x7b \x7d").map (fun r => (srcOf r.1).map Src.file) =
        some (some (some "b.wlk"))
    ∧ (runP ((FileCall "a.wlk" none).2 (FileCall "a.wlk" none).1 30)
        "object o \x7b \x7d").map (fun r => (srcOf r.1).map Src.file) =
        some (some (some "a.wlk"))
    ∧ some (some (some "b.wlk")) ≠ (some (some (some "a.wlk")) : Option (Option (Option String))) :=
  ⟨rfl, rfl, rfl, by decide⟩

/-- C9 counterexample: for the closure `{ x => x }` the recorded `code`
is the whole bracketed text `{ x => x }` (braces included), not the
substring between the braces. -/
theorem claim_C9_counterexample :
    (runP (closureLiteral none 30) "\x7b x => x \x7d").map (fun r => codeOf r.1) =
      some (some "\x7b x => x \x7d")
    ∧ ("\x7b x => x \x7d" : String) ≠ " x => x " :=
  ⟨rfl, by decide⟩

/-- C9 amended: the `code` of a closure literal is the verbatim input
slice covering the closure's whole marked span — from the position where
the closure parser started (before the `{` token, including any blanks
the brace keys consume) to the position after the `}` token — i.e. it
includes the braces. -/
theorem claim_C9_amended_closure_code :
    ∀ (sf : Option String) (n : Nat) inp i v j,
      closureLiteral sf (n + 1) inp i = some (v, j) →
      ∃ ps ss,
        v = .Closure ps ss (some (String.mk ((inp.take j).drop i)))
          (some { start := posAt inp i, stop := posAt inp j, file := sf }) := by
  intro sf n inp i v j h
  unfold closureLiteral at h
  rw [P.bind_eq_some] at h
  obtain ⟨⟨start, ⟨ps, ss⟩, stop⟩, k, hmark, hcont⟩ := h
  have hcont' := Option.some.inj hcont
  rw [Prod.mk.injEq] at hcont'
  have hv : v = buildClosure ps ss
      (some (String.mk ((inp.take stop.offset).drop start.offset)))
      (some { start := start, stop := stop, file := sf }) := hcont'.1.symm
  have hkj : k = j := hcont'.2
  subst hv
  unfold P.mark at hmark
  rw [P.map_eq_some] at hmark
  obtain ⟨⟨s1, v1, e1⟩, hseq, heq⟩ := hmark
  rw [Prod.mk.injEq, Prod.mk.injEq] at heq
  rw [P.seq_eq_some] at hseq
  obtain ⟨k1, hidx1, hseq2⟩ := hseq
  rw [P.seq_eq_some] at hseq2
  obtain ⟨k2, hcore, hidx2⟩ := hseq2
  have hidx1' := Option.some.inj hidx1
  rw [Prod.mk.injEq] at hidx1'
  have hidx2' := Option.some.inj hidx2
  rw [Prod.mk.injEq] at hidx2'
  have hstart : start = posAt inp i := Eq.trans heq.1 hidx1'.1.symm
  have hstop : stop = posAt inp k2 := Eq.trans heq.2.2 hidx2'.1.symm
  have hk2j : k2 = j := hidx2'.2.trans hkj
  subst hstart
  subst hstop
  refine ⟨ps, ss, ?_⟩
  rw [hk2j]
  rfl

/-- C9 witness: the amended statement applied to `{ x => x }`. -/
theorem claim_C9_witness :
    ∃ ps ss,
      Node.Closure
        [Node.Parameter "x" false (some ⟨⟨2, 1, 3⟩, ⟨3, 1, 4⟩, none⟩)]
        [Node.Reference "x" (some ⟨⟨7, 1, 8⟩, ⟨8, 1, 9⟩, none⟩)]
        (some "\x7b x => x \x7d")
        (some ⟨⟨0, 1, 1⟩, ⟨10, 1, 11⟩, none⟩) =
      .Closure ps ss
        (some (String.mk (("\x7b x => x \x7d".data.take 10).drop 0)))
        (some { start := posAt "\x7b x => x \x7d".data 0,
                stop := posAt "\x7b x => x \x7d".data 10, file := none }) :=
  claim_C9_amended_closure_code none 29 "\x7b x => x \x7d".data 0 _ 10 rfl

/-- C10: a full (named) singleton declaration is accepted in literal
position: `object foo { }` as an expression yields a `Literal` whose
value is the named `Singleton`, and the same holds when it appears as a
message argument. -/
theorem claim_C10_named_object_literal :
    runP (Expression none 30) "object foo \x7b \x7d" =
      some
        (.Literal
          (.nodeV
            (.Singleton (some "foo") none [] [] [] (some [])
              (some ⟨⟨0, 1, 1⟩, ⟨14, 1, 15⟩, none⟩)))
          (some ⟨⟨0, 1, 1⟩, ⟨14, 1, 15⟩, none⟩), 14)
    ∧ (runP (Expression none 30) "x.m(object foo \x7b \x7d)").map
        (fun r =>
          match r.1 with
          | .Send _ m [a] _ => some (m, literalSingletonName a)
          | _ => none) = some (some ("m", some (some "foo"))) :=
  ⟨rfl, rfl⟩

end Wollok
